import Mathlib

/-!
Verification development for the speedyspotify client library.

The definitions below are a shallow embedding of the request-orchestration
core of the library: the identifier normalizer and list helpers of
`speedyspotify/util.py` and the expansion / join logic of
`speedyspotify/client.py`.  Python dicts/lists/strings/numbers are embedded
as a `Json` inductive; Python generators are embedded as functions to lists;
Python exceptions are embedded as explicit result constructors
(`Except`-style or dedicated inductives).  HTTP responses are modelled as a
record of the observations the code makes of them: the `ok` flag, the status
code, the raw body text, the result of JSON-decoding the body (`none` when
decoding would raise `ValueError`), and the originating request URL.
-/

/-- Embedding of a decoded JSON / Python value. -/
inductive Json where
  | null : Json
  | bool : Bool → Json
  | num : Int → Json
  | str : String → Json
  | arr : List Json → Json
  | obj : List (String × Json) → Json

/-- First value bound to `key` in a dict (Python `d[key]` / `key in d`). -/
def lookupKey (key : String) : List (String × Json) → Option Json
  | [] => none
  | (k, v) :: rest => if k = key then some v else lookupKey key rest

/-- True exactly for dict values (`isinstance(x, dict)`). -/
def Json.isObj : Json → Bool
  | .obj _ => true
  | _ => false

/-- Python iteration `[x for x in v]`: a list yields its elements, a dict its
keys, a string its one-character substrings; other values raise `TypeError`
(embedded as `none`). -/
def pyIter : Json → Option (List Json)
  | .arr l => some l
  | .obj kvs => some (kvs.map (fun kv => Json.str kv.1))
  | .str s => some (s.data.map (fun c => Json.str (String.singleton c)))
  | _ => none

/-- Bool-valued prefix test on character lists (Python `str.startswith`). -/
def charsStart : List Char → List Char → Bool
  | [], _ => true
  | _ :: _, [] => false
  | a :: as, b :: bs => a == b && charsStart as bs

/-- Python `s.startswith(p)`. -/
def pyStartsWith (p s : String) : Bool := charsStart p.data s.data

/-- Bool-valued substring test (Python `needle in hay` for strings). -/
def charsInfix (needle : List Char) : List Char → Bool
  | [] => needle.isEmpty
  | b :: bs => charsStart needle (b :: bs) || charsInfix needle bs

/-- Python `needle in hay` on strings. -/
def pyInStr (needle hay : String) : Bool := charsInfix needle.data hay.data

/-- Python `s.split(sep)` on character lists: splits at every separator,
keeping empty segments, and always returns at least one segment. -/
def splitChars (sep : Char) : List Char → List (List Char)
  | [] => [[]]
  | c :: rest =>
    match splitChars sep rest with
    | [] => []
    | seg :: segs => if c = sep then [] :: seg :: segs else (c :: seg) :: segs

/-- Python `s.split(sep)[-1]`: the last segment of the split. -/
def pySplitLast (sep : Char) (s : String) : String :=
  String.mk ((splitChars sep s.data).getLastD [])

/-- Embedding of `util.id_from_str`: URLs keep the last `/`-segment,
`spotify:`-URIs keep the last `:`-segment, anything else passes through. -/
def id_from_str (strid : String) : String :=
  if pyStartsWith "http" strid then pySplitLast '/' strid
  else if pyStartsWith "spotify:" strid then pySplitLast ':' strid
  else strid

/-- Embedding of `util.chunked`'s accumulator loop: `chunk` is the list being
filled; it is emitted whenever it reaches length `n`, and any non-empty
remainder is emitted at the end. -/
def chunkedGo {α : Type} (n : Nat) : List α → List α → List (List α)
  | [], chunk => if chunk.isEmpty then [] else [chunk]
  | i :: rest, chunk =>
    let c := chunk ++ [i]
    if c.length = n then c :: chunkedGo n rest [] else chunkedGo n rest c

/-- Embedding of `util.chunked`: yield `n`-sized chunks from `seq`. -/
def chunked {α : Type} (seq : List α) (n : Nat) : List (List α) :=
  chunkedGo n seq []

/-- Ceiling division, the value of `math.ceil(total/limit)` on naturals. -/
def ceilDiv (a b : Nat) : Nat := (a + b - 1) / b

section FindItem

/-- A JSON value as a Python return value: JSON `null` IS Python `None`, so
returning a null-valued field yields `None` — indistinguishable from "no
result".  `find_item`'s results are normalized through this, keeping the
invariant that `none` means Python `None` and `some v` a non-`None` value. -/
def jNonNull : Json → Option Json
  | Json.null => none
  | v => some v

mutual

/-- Embedding of `util.find_item` on a dict: return the value bound to `key`
if present (a null value coming back as Python `None`, via `jNonNull`), else
depth-first search the dict-valued entries in order.  (`find_item` called on
a non-dict raises; call sites embed that case separately.) -/
def findJ (key : String) : Json → Option Json
  | .obj kvs =>
    match lookupKey key kvs with
    | some v => jNonNull v
    | none => findVals key kvs
  | _ => none

/-- Depth-first search of the dict-valued entries of a dict, in entry order
(the `for k, v in item.items()` loop of `util.find_item`): a recursive
result of Python `None` — not found, or a found `null` — fails the
`if item is not None` check, and the search continues with later siblings. -/
def findVals (key : String) : List (String × Json) → Option Json
  | [] => none
  | (_, Json.obj kvs2) :: rest =>
    match findJ key (Json.obj kvs2) with
    | some r => some r
    | none => findVals key rest
  | _ :: rest => findVals key rest

end

end FindItem

/-- Does `item.get('type') == item_type` hold for a dict with these entries? -/
def typeMatches (t : String) (kvs : List (String × Json)) : Bool :=
  match lookupKey "type" kvs with
  | some (Json.str s) => s == t
  | _ => false

/-- Python `a['id']` on an element: the value bound to `'id'` when `a` is a
dict that has one; any other case raises (`TypeError` / `KeyError`). -/
def idOfObjElem : Json → Except Unit Json
  | .obj kvs =>
    match lookupKey "id" kvs with
    | some v => .ok v
    | none => .error ()
  | _ => .error ()

/-- `(a['id'] for a in l)`, materialized: every element must be a dict with
an `'id'` entry, otherwise the generator raises. -/
def idsOfElems : List Json → Except Unit (List Json)
  | [] => .ok []
  | x :: rest =>
    match idOfObjElem x with
    | .error () => .error ()
    | .ok v =>
      match idsOfElems rest with
      | .error () => .error ()
      | .ok vs => .ok (v :: vs)

/-- The `item_type == 'album'` branch of `util.get_ids`:
`find_item('album', item)['id']`. -/
def albumBranch (kvs : List (String × Json)) : Except Unit (List Json) :=
  match findJ "album" (Json.obj kvs) with
  | some (Json.obj akvs) =>
    match lookupKey "id" akvs with
    | some v => .ok [v]
    | none => .error ()
  | _ => .error ()

/-- The `item_type == 'artist'` branch of `util.get_ids`: iterate
`find_item('artists', item)` yielding each element's `'id'`. -/
def artistBranch (kvs : List (String × Json)) : Except Unit (List Json) :=
  match findJ "artists" (Json.obj kvs) with
  | some v =>
    match pyIter v with
    | some elems => idsOfElems elems
    | none => .error ()
  | none => .error ()

/-- The `item_type == 'track'` branch of `util.get_ids`: a `'track'`-wrapped
dict yields `item['track']['id']`; otherwise iterate
`find_item('tracks', item)['items']` yielding each element's `'id'`. -/
def trackBranch (kvs : List (String × Json)) : Except Unit (List Json) :=
  match lookupKey "track" kvs with
  | some tv =>
    match idOfObjElem tv with
    | .ok v => .ok [v]
    | .error () => .error ()
  | none =>
    match findJ "tracks" (Json.obj kvs) with
    | some (Json.obj tkvs) =>
      match lookupKey "items" tkvs with
      | some its =>
        match pyIter its with
        | some elems => idsOfElems elems
        | none => .error ()
      | none => .error ()
    | _ => .error ()

/-- The ids one loop iteration of `util.get_ids` yields for `item`:
a string is normalized with `id_from_str`; a dict whose `type` matches
yields its `id`; otherwise the resource-specific unwrapping branches apply;
any other case raises (`ValueError` / `AttributeError` / ...). -/
def idsOfItem (t : String) (item : Json) : Except Unit (List Json) :=
  match item with
  | .str s => .ok [Json.str (id_from_str s)]
  | .obj kvs =>
    if typeMatches t kvs then
      match lookupKey "id" kvs with
      | some v => .ok [v]
      | none => .error ()
    else if t = "album" then albumBranch kvs
    else if t = "artist" then artistBranch kvs
    else if t = "track" then trackBranch kvs
    else .error ()
  | _ => .error ()

/-- Embedding of `util.get_ids` consumed into a list (a single dict argument
is wrapped into a one-element list by the function's first line; the list
form is embedded here).  Any exception inside the generator aborts the whole
extraction. -/
def get_ids (t : String) : List Json → Except Unit (List Json)
  | [] => .ok []
  | item :: rest =>
    match idsOfItem t item with
    | .error () => .error ()
    | .ok vs =>
      match get_ids t rest with
      | .error () => .error ()
      | .ok ws => .ok (vs ++ ws)

/-- The seen-set loop of `Spotify._all_chunked`'s `unique` handling:
`[iid for iid in items if not (iid in seen or seen_add(iid))]`. -/
def dedupeGo {α : Type} [DecidableEq α] (seen : List α) : List α → List α
  | [] => []
  | x :: rest =>
    if x ∈ seen then dedupeGo seen rest else x :: dedupeGo (x :: seen) rest

/-- Deduplication keeping first occurrences, as performed by
`Spotify._all_chunked` when `unique=True`. -/
def dedupe_first {α : Type} [DecidableEq α] (l : List α) : List α :=
  dedupeGo [] l

/-- Embedding of `Spotify._all_chunked` after identifier extraction: the
chunks of the (optionally deduplicated) identifier list, one request being
dispatched per chunk with the chunk substituted for the first argument. -/
def all_chunked {α : Type} [DecidableEq α]
    (ids : List α) (unique : Bool) (csize : Nat) : List (List α) :=
  chunked (if unique then dedupe_first ids else ids) csize

/-- The parameters of one physical request dispatched by the offset
expander: its `limit` and (when set) its `offset` query parameter. -/
structure Req where
  limit : Nat
  offset : Option Nat
deriving DecidableEq, Repr

/-- The `limit=1` probe request `Spotify._all_with_offset` dispatches first
to discover the total. -/
def probeReq : Req := ⟨1, none⟩

/-- The dispatch loop of `Spotify._all_with_offset`: `count` remaining
requests, the next one carrying offset `i`, each next offset `limit` larger. -/
def offsetLoop (limit : Nat) : Nat → Nat → List Req
  | 0, _ => []
  | count + 1, i => ⟨limit, some i⟩ :: offsetLoop limit count (i + limit)

/-- Embedding of the request list returned by `Spotify._all_with_offset`
once the probe discovered `total`: `math.ceil(total/limit)` page requests
with offsets `0, limit, 2*limit, ...`. -/
def all_with_offset (total limit : Nat) : List Req :=
  offsetLoop limit (ceilDiv total limit) 0

/-- All requests `Spotify._all_with_offset` dispatches, in dispatch order:
the `limit=1` probe followed by the full-size page requests (the probe's
result is never reused as page 0). -/
def all_with_offset_dispatched (total limit : Nat) : List Req :=
  probeReq :: all_with_offset total limit

/-- Outcome of `util.extract_list`: the located value, the explicit
`Exception('No item list detected')`, or an uncaught `TypeError` (raised by
`'items' in item` on a non-container, or by subscripting a string). -/
inductive ELRes where
  | val : Json → ELRes
  | noList : ELRes
  | tyErr : ELRes

/-- Embedding of `util.extract_list`: a list is returned as is; a dict
returns the first present entry among `items`, `tracks`, `albums`,
`artists` in that order, else the `No item list detected` exception; a
string runs the same `in`-checks as substring tests and subscripting raises
`TypeError` on a hit; non-containers raise `TypeError` at the first
`in`-check. -/
def extract_list (item : Json) : ELRes :=
  match item with
  | .arr l => .val (.arr l)
  | .obj kvs =>
    match lookupKey "items" kvs with
    | some v => .val v
    | none =>
      match lookupKey "tracks" kvs with
      | some v => .val v
      | none =>
        match lookupKey "albums" kvs with
        | some v => .val v
        | none =>
          match lookupKey "artists" kvs with
          | some v => .val v
          | none => .noList
  | .str s =>
    if pyInStr "items" s then .tyErr
    else if pyInStr "tracks" s then .tyErr
    else if pyInStr "albums" s then .tyErr
    else if pyInStr "artists" s then .tyErr
    else .noList
  | _ => .tyErr

/-- A resolved HTTP response as observed by the joiner: the `ok` flag, the
status code, the raw body text, the JSON decoding of the body (`none` when
`response.json()` would raise `ValueError`), and the URL of the request that
produced it (`response.request.url`). -/
structure Response where
  ok : Bool
  status_code : Nat
  text : String
  body : Option Json
  url : String

/-- The message computation of `SpotifyException.__init__`: empty body gives
the fixed message; a body that fails to decode, lacks `error`, or lacks
`error.message` falls back to the raw text (those raise `ValueError`  or
`KeyError`, both caught); subscripting a decoded non-dict raises an uncaught
`TypeError`, embedded as `Except.error ()`. -/
def spotifyMsg (r : Response) : Except Unit Json :=
  if r.text = "" then .ok (Json.str "Unkown error occured")
  else
    match r.body with
    | none => .ok (Json.str r.text)
    | some j =>
      match j with
      | .obj kvs =>
        match lookupKey "error" kvs with
        | none => .ok (Json.str r.text)
        | some e =>
          match e with
          | .obj ekvs =>
            match lookupKey "message" ekvs with
            | none => .ok (Json.str r.text)
            | some m => .ok m
          | _ => .error ()
      | _ => .error ()

/-- The data carried by a successfully constructed `SpotifyException`: the
HTTP status, the computed message, and the request URL; `Except.error ()`
when the constructor itself raises `TypeError`. -/
def spotifyExceptionParts (r : Response) : Except Unit (Nat × Json × String) :=
  match spotifyMsg r with
  | .error () => .error ()
  | .ok m => .ok (r.status_code, m, r.url)

/-- Result of joining a collection of requests (`Spotify._join_many`). -/
inductive JoinResult where
  | ok : List Json → JoinResult
  | apiError : Nat → Json → String → JoinResult
  | exn : String → JoinResult
  | pyError : JoinResult

/-- Embedding of `raise SpotifyException(response.request, response)` inside
`_join_many`: an `apiError` carrying status, message and URL, unless the
constructor itself raises. -/
def raiseSpotify (r : Response) : JoinResult :=
  match spotifyMsg r with
  | .ok m => .apiError r.status_code m r.url
  | .error () => .pyError

/-- Is this outcome an `ApiError`? -/
def JoinResult.isApi : JoinResult → Bool
  | .apiError _ _ _ => true
  | _ => false

/-- The accumulation loop of `Spotify._join_many` over the already-resolved
responses, in dispatch order: a non-ok response raises immediately; an empty
body appends `None`; otherwise the decoded body is appended whole, or — with
a truthy `extract` — the elements of `extract_list`'s result are appended. -/
def join_many_go (extract : Bool) : List Response → List Json → JoinResult
  | [], acc => .ok acc
  | r :: rest, acc =>
    if r.ok then
      if r.text = "" then join_many_go extract rest (acc ++ [Json.null])
      else
        match r.body with
        | none => .pyError
        | some j =>
          if extract then
            match extract_list j with
            | .val v =>
              match pyIter v with
              | some elems => join_many_go extract rest (acc ++ elems)
              | none => .pyError
            | .noList => .exn "No item list detected"
            | .tyErr => .pyError
          else join_many_go extract rest (acc ++ [j])
    else raiseSpotify r

/-- Embedding of `Spotify._join_many` on resolved responses. -/
def join_many (rs : List Response) (extract : Bool) : JoinResult :=
  join_many_go extract rs []

/-- Result of joining a single request (`Spotify._join_one`). -/
inductive Join1 where
  | ok : Option Json → Join1
  | apiError : Nat → Json → String → Join1
  | pyError : Join1

/-- Embedding of `raise SpotifyException(...)` inside `_join_one`. -/
def raiseSpotify1 (r : Response) : Join1 :=
  match spotifyMsg r with
  | .ok m => .apiError r.status_code m r.url
  | .error () => .pyError

/-- Embedding of `Spotify._join_one`: a non-ok response raises; an empty
body returns `None`; otherwise the decoded body is returned, except that a
truthy `extract` key returns `find_item(extract, result)` (which raises on a
non-dict body). -/
def join_one (r : Response) (extract : Option String) : Join1 :=
  if r.ok then
    if r.text = "" then .ok none
    else
      match r.body with
      | none => .pyError
      | some j =>
        match extract with
        | some key =>
          if key = "" then .ok (some j)
          else
            match j with
            | .obj kvs => .ok (findJ key (Json.obj kvs))
            | _ => .pyError
        | none => .ok (some j)
  else raiseSpotify1 r

/-- The strategy metadata `Spotify.all` inspects on the wrapped operation:
whether its signature has an `offset` parameter, and the value of its
`chunk_size` attribute when the attribute exists. -/
structure Endpoint where
  hasOffsetParam : Bool
  chunk_size : Option Nat

/-- Outcome of the branch structure of `Spotify.all`: which expander runs,
or which exception is raised before any expander is called (`attrError` for
a missing `chunk_size` attribute, `notImpl` for a falsy one). -/
inductive AllOutcome where
  | useOffset : AllOutcome
  | useChunk : AllOutcome
  | attrError : AllOutcome
  | notImpl : AllOutcome
deriving DecidableEq, Repr

/-- Embedding of the strategy selection in `Spotify.all`: an `offset`
parameter selects `_all_with_offset`; else a truthy `chunk_size` attribute
selects `_all_chunked`; else the call raises before any expander runs. -/
def selectStrategy (e : Endpoint) : AllOutcome :=
  if e.hasOffsetParam then .useOffset
  else
    match e.chunk_size with
    | none => .attrError
    | some n => if n ≠ 0 then .useChunk else .notImpl

/-- Does this outcome reach an expander at all?  The two error outcomes are
raised in `Spotify.all` itself, before `_all_with_offset` or `_all_chunked`
could dispatch anything. -/
def AllOutcome.dispatches : AllOutcome → Bool
  | .useOffset => true
  | .useChunk => true
  | .attrError => false
  | .notImpl => false

/-- Concatenation of a list of lists (used to state flattening results). -/
def concatAll {α : Type} : List (List α) → List α
  | [] => []
  | l :: ls => l ++ concatAll ls

/-- Per-item map followed by concatenation. -/
def concatMap {α β : Type} (f : α → List β) (l : List α) : List β :=
  concatAll (l.map f)

/-- A well-formed `get_ids` input item in the sense of claim C5: a raw
reference string, or a response object whose `type` matches and which
carries an `id`. -/
def validItem (t : String) : Json → Bool
  | .str _ => true
  | .obj kvs => typeMatches t kvs && (lookupKey "id" kvs).isSome
  | _ => false

/-- The ids the spec expects for one well-formed item: the normalized raw
reference, or the object's `id` value. -/
def specItemIds (t : String) : Json → List Json
  | .str s => [Json.str (id_from_str s)]
  | .obj kvs =>
    match lookupKey "id" kvs with
    | some v => [v]
    | none => []
  | _ => []

/-- Spec-side deduplication, written as the claim states it: keep the first
occurrence of each element and drop its later duplicates, preserving order. -/
def specDedup {α : Type} [DecidableEq α] : List α → List α
  | [] => []
  | x :: rest => x :: specDedup (rest.filter (fun y => y ≠ x))
termination_by l => l.length
decreasing_by
  simp only [List.length_cons]
  exact Nat.lt_succ_of_le (List.length_filter_le _ _)

/-- A decoded body on which `extract_list` raises the
`No item list detected` exception: a dict with none of the four list keys,
or a string containing none of them as substrings. -/
def noListJson : Json → Bool
  | .obj kvs =>
    (lookupKey "items" kvs).isNone && (lookupKey "tracks" kvs).isNone &&
      (lookupKey "albums" kvs).isNone && (lookupKey "artists" kvs).isNone
  | .str s =>
    !pyInStr "items" s && !pyInStr "tracks" s &&
      !pyInStr "albums" s && !pyInStr "artists" s
  | _ => false

/-- One ok response of a joined collection that the `_join_many` loop folds
into the output, contributing the element list `l`: an empty body
contributes `[None]`; a non-empty body must decode, and contributes the
iterated `extract_list` elements when `extract` is truthy, or the whole
body when it is falsy. -/
def contrib (extract : Bool) (r : Response) (l : List Json) : Prop :=
  r.ok = true ∧
    ((r.text = "" ∧ l = [Json.null]) ∨
      (r.text ≠ "" ∧ ∃ j, r.body = some j ∧
        ((extract = true ∧ ∃ v, extract_list j = ELRes.val v ∧ pyIter v = some l) ∨
          (extract = false ∧ l = [j]))))

/-- The value `extract_list` locates in a decoded body, when that value is a
list: the body itself, or the first present entry among `items`, `tracks`,
`albums`, `artists`. -/
def listOfBody (j : Json) : Option (List Json) :=
  match extract_list j with
  | ELRes.val (Json.arr l) => some l
  | _ => none

/-- True exactly for list values (`isinstance(x, list)`). -/
def Json.isArr : Json → Bool
  | .arr _ => true
  | _ => false

lemma offsetLoop_eq_map (m : Nat) :
    ∀ c i, offsetLoop m c i = (List.range c).map (fun k => Req.mk m (some (i + k * m))) := by
  intro c
  induction c with
  | zero => intro i; rfl
  | succ c ih =>
    intro i
    rw [List.range_succ_eq_map, List.map_cons, List.map_map]
    show Req.mk m (some i) :: offsetLoop m c (i + m) = _
    rw [ih (i + m)]
    congr 1
    · simp
    · refine List.map_congr_left fun k _ => ?_
      simp only [Function.comp_apply, Nat.succ_mul, Req.mk.injEq, Option.some.injEq,
        true_and]
      omega

lemma all_with_offset_eq_map (total m : Nat) :
    all_with_offset total m
      = (List.range (ceilDiv total m)).map (fun k => Req.mk m (some (k * m))) := by
  unfold all_with_offset
  rw [offsetLoop_eq_map]
  simp

lemma chunkedGo_concat {α : Type} (n : Nat) :
    ∀ (l acc : List α), concatAll (chunkedGo n l acc) = acc ++ l := by
  intro l
  induction l with
  | nil =>
    intro acc
    by_cases h : acc.isEmpty
    · simp only [chunkedGo, h, if_pos]
      rw [List.isEmpty_iff] at h
      simp [h, concatAll]
    · simp only [chunkedGo, h]
      simp [concatAll]
  | cons i rest ih =>
    intro acc
    simp only [chunkedGo]
    by_cases h : (acc ++ [i]).length = n
    · rw [if_pos h]
      simp only [concatAll, ih]
      simp
    · rw [if_neg h, ih]
      simp

lemma chunkedGo_sizes {α : Type} (n : Nat) :
    ∀ (l acc : List α), acc.length < n →
      (chunkedGo n l acc).map List.length
        = List.replicate ((acc.length + l.length) / n) n
            ++ (if (acc.length + l.length) % n = 0 then []
                else [(acc.length + l.length) % n]) := by
  intro l
  induction l with
  | nil =>
    intro acc hacc
    cases acc with
    | nil => simp [chunkedGo]
    | cons a as =>
      simp only [chunkedGo, List.isEmpty_cons, Bool.false_eq_true, if_false,
        List.map_cons, List.map_nil, List.length_nil, Nat.add_zero]
      rw [Nat.div_eq_of_lt hacc, Nat.mod_eq_of_lt hacc]
      have hne : (a :: as).length ≠ 0 := by simp
      simp [hne]
  | cons i rest ih =>
    intro acc hacc
    have hn : 0 < n := by omega
    simp only [chunkedGo]
    by_cases h : (acc ++ [i]).length = n
    · rw [if_pos h]
      simp only [List.map_cons]
      rw [ih [] hn]
      have htot : acc.length + (i :: rest).length = rest.length + n := by
        have : (acc ++ [i]).length = acc.length + 1 := by simp
        simp only [List.length_cons]
        omega
      rw [htot, Nat.add_div_right _ hn, Nat.add_mod_right, h]
      simp [List.replicate_succ]
    · have hlt : (acc ++ [i]).length < n := by
        have : (acc ++ [i]).length = acc.length + 1 := by simp
        omega
      rw [if_neg h, ih _ hlt]
      have htot : (acc ++ [i]).length + rest.length = acc.length + (i :: rest).length := by
        simp only [List.length_append, List.length_cons, List.length_nil]
        omega
      rw [htot]

lemma ceilDiv_split (a n : Nat) (h : 0 < n) :
    ceilDiv a n = a / n + (if a % n = 0 then 0 else 1) := by
  have hmod := Nat.div_add_mod a n
  have hr : a % n < n := Nat.mod_lt _ h
  by_cases h0 : a % n = 0
  · have ha : a + n - 1 = n * (a / n) + (n - 1) := by omega
    unfold ceilDiv
    rw [ha, Nat.mul_add_div h, Nat.div_eq_of_lt (show n - 1 < n by omega)]
    simp [h0]
  · have ha : a + n - 1 = n * (a / n + 1) + (a % n - 1) := by
      have : n * (a / n + 1) = n * (a / n) + n := by ring
      omega
    unfold ceilDiv
    rw [ha, Nat.mul_add_div h, Nat.div_eq_of_lt (show a % n - 1 < n by omega)]
    simp [h0]

lemma offset_pages_getElem (total m k : Nat) (hk : k < ceilDiv total m) :
    (all_with_offset total m)[k]? = some (Req.mk m (some (k * m))) := by
  rw [all_with_offset_eq_map, List.getElem?_map, List.getElem?_range hk]
  rfl

/-- C1: `Spotify._all_with_offset` with discovered total `t` and declared
max page size `m > 0` returns exactly `ceil(t/m)` page requests, the `k`-th
carrying `limit=m` and `offset=k*m`; the `limit=1` probe is an additional
dispatched request whose result is not reused as page 0; in particular for
`t=95`, `m=50` the pages are exactly two requests at offsets 0 and 50, both
with `limit=50`. -/
theorem offset_expansion_correct :
    (∀ total m, 0 < m →
      all_with_offset total m
          = (List.range (ceilDiv total m)).map (fun k => Req.mk m (some (k * m))) ∧
        (all_with_offset total m).length = ceilDiv total m ∧
        (∀ k, k < ceilDiv total m →
          (all_with_offset total m)[k]? = some (Req.mk m (some (k * m)))) ∧
        all_with_offset_dispatched total m = probeReq :: all_with_offset total m ∧
        probeReq.limit = 1 ∧
        (all_with_offset_dispatched total m).length = ceilDiv total m + 1) ∧
      all_with_offset 95 50 = [Req.mk 50 (some 0), Req.mk 50 (some 50)] := by
  constructor
  · intro total m _
    refine ⟨all_with_offset_eq_map total m, ?_, fun k hk => offset_pages_getElem total m k hk,
      rfl, rfl, ?_⟩
    · rw [all_with_offset_eq_map]; simp
    · show (all_with_offset total m).length + 1 = _
      rw [all_with_offset_eq_map]; simp
  · decide

/-- Witness for C1 at `total=95`, `maxPageSize=50`. -/
theorem offset_expansion_correct_witness :
    0 < 50 ∧ (all_with_offset 95 50).length = ceilDiv 95 50 :=
  ⟨by decide, (offset_expansion_correct.1 95 50 (by decide)).2.1⟩

lemma chunked_length {α : Type} (l : List α) (n : Nat) (h : 0 < n) :
    (chunked l n).length = ceilDiv l.length n := by
  have hs := chunkedGo_sizes n l [] h
  have : (chunked l n).length = ((chunked l n).map List.length).length := by
    simp
  rw [this]
  unfold chunked
  rw [hs, ceilDiv_split _ _ h]
  simp only [List.length_nil, Nat.zero_add, List.length_append, List.length_replicate]
  by_cases h0 : l.length % n = 0 <;> simp [h0]

/-- C4: `Spotify._all_chunked` (with `unique` left at its default) splits
the extracted identifier list into `chunked` chunks, dispatching exactly
`ceil(n/c)` requests whose chunks concatenate back to the input, each of
size `c` except a final chunk of size `n mod c` when that is nonzero; in
particular 130 identifiers with chunk size 50 give chunk sizes
`[50, 50, 30]`. -/
theorem chunk_expansion_correct :
    (∀ (ids : List String) (c : Nat), 0 < c →
      all_chunked ids false c = chunked ids c ∧
        (chunked ids c).length = ceilDiv ids.length c ∧
        concatAll (chunked ids c) = ids ∧
        (chunked ids c).map List.length
          = List.replicate (ids.length / c) c
              ++ (if ids.length % c = 0 then [] else [ids.length % c])) ∧
      (chunked (List.replicate 130 "i") 50).map List.length = [50, 50, 30] := by
  constructor
  · intro ids c hc
    refine ⟨rfl, chunked_length ids c hc, chunkedGo_concat c ids [], ?_⟩
    have hs := chunkedGo_sizes c ids [] hc
    simpa using hs
  · decide

/-- Witness for C4 at 130 identifiers and chunk size 50. -/
theorem chunk_expansion_correct_witness :
    0 < 50 ∧ concatAll (chunked (List.replicate 130 "i") 50) = List.replicate 130 "i" :=
  ⟨by decide, (chunk_expansion_correct.1 (List.replicate 130 "i") 50 (by decide)).2.2.1⟩

lemma get_ids_valid (t : String) :
    ∀ (items : List Json), (∀ item ∈ items, validItem t item = true) →
      get_ids t items = Except.ok (concatMap (specItemIds t) items) := by
  intro items
  induction items with
  | nil => intro _; rfl
  | cons item rest ih =>
    intro hv
    have hitem := hv item (List.mem_cons_self item rest)
    have hrest := ih fun x hx => hv x (List.mem_cons_of_mem item hx)
    have hone : idsOfItem t item = Except.ok (specItemIds t item) := by
      cases item with
      | str s => rfl
      | obj kvs =>
        simp only [validItem, Bool.and_eq_true, Option.isSome_iff_exists] at hitem
        obtain ⟨htype, v, hid⟩ := hitem
        simp [idsOfItem, specItemIds, htype, hid]
      | null => simp [validItem] at hitem
      | bool b => simp [validItem] at hitem
      | num n => simp [validItem] at hitem
      | arr l => simp [validItem] at hitem
    simp only [get_ids, hone, hrest]
    rfl

lemma dedupeGo_spec {α : Type} [DecidableEq α] :
    ∀ (l seen : List α),
      dedupeGo seen l = specDedup (l.filter (fun y => y ∉ seen)) := by
  intro l
  induction l with
  | nil => intro seen; simp [dedupeGo, specDedup]
  | cons x rest ih =>
    intro seen
    by_cases hx : x ∈ seen
    · simp only [dedupeGo, if_pos hx]
      rw [ih seen]
      congr 1
      simp [List.filter_cons, hx]
    · simp only [dedupeGo, if_neg hx]
      have hcons : (x :: rest).filter (fun y => y ∉ seen)
          = x :: rest.filter (fun y => y ∉ seen) := by
        simp [List.filter_cons, hx]
      rw [hcons]
      simp only [specDedup]
      have hff : (rest.filter (fun y => y ∉ seen)).filter (fun y => y ≠ x)
          = rest.filter (fun y => y ∉ x :: seen) := by
        rw [List.filter_filter]
        refine List.filter_congr fun a _ => ?_
        by_cases h1 : a = x <;> by_cases h2 : a ∈ seen <;> simp [h1, h2]
      rw [hff, ih (x :: seen)]

lemma dedupe_first_spec {α : Type} [DecidableEq α] (l : List α) :
    dedupe_first l = specDedup l := by
  unfold dedupe_first
  rw [dedupeGo_spec]
  congr 1
  simp

/-- C5: `get_ids` over a mixed list of raw ID strings and type-matching
response objects yields each item's ids in input order (raw strings pass
through `id_from_str`, objects contribute their `id`); and the `unique=True`
path of `Spotify._all_chunked` removes duplicates before chunking, keeping
exactly the first occurrence of each id and the relative order of first
occurrences (`specDedup` is that keep-first specification). -/
theorem ids_extraction_order_and_unique :
    (∀ (t : String) (items : List Json), (∀ item ∈ items, validItem t item = true) →
      get_ids t items = Except.ok (concatMap (specItemIds t) items)) ∧
      (∀ (ids : List String), dedupe_first ids = specDedup ids) ∧
      (∀ (ids : List String) (c : Nat), all_chunked ids true c = chunked (dedupe_first ids) c) :=
  ⟨get_ids_valid, fun ids => dedupe_first_spec ids, fun _ _ => rfl⟩

/-- Witness for C5: a URI string, a typed object and a duplicated raw id. -/
theorem ids_extraction_order_and_unique_witness :
    get_ids "track"
        [Json.str "spotify:track:aaa",
          Json.obj [("type", Json.str "track"), ("id", Json.str "bbb")],
          Json.str "aaa"]
      = Except.ok [Json.str "aaa", Json.str "bbb", Json.str "aaa"] ∧
      dedupe_first ["aaa", "bbb", "aaa"] = specDedup ["aaa", "bbb", "aaa"] :=
  ⟨(ids_extraction_order_and_unique.1 "track"
      [Json.str "spotify:track:aaa",
        Json.obj [("type", Json.str "track"), ("id", Json.str "bbb")],
        Json.str "aaa"] (by decide)).trans rfl,
    ids_extraction_order_and_unique.2.1 ["aaa", "bbb", "aaa"]⟩

/-- C6: the branch structure of `Spotify.all`: an `offset` parameter in the
wrapped operation's signature selects the offset strategy; otherwise a
declared (truthy) `chunk_size` selects the chunk strategy; otherwise the
call raises a programming-error exception (`AttributeError` for a missing
attribute, `NotImplementedError` for a falsy one) in `Spotify.all` itself,
before either expander could dispatch a request. -/
theorem strategy_selection_correct :
    ∀ e : Endpoint,
      (e.hasOffsetParam = true → selectStrategy e = AllOutcome.useOffset) ∧
        (∀ n, e.hasOffsetParam = false → e.chunk_size = some n → n ≠ 0 →
          selectStrategy e = AllOutcome.useChunk) ∧
        (e.hasOffsetParam = false → e.chunk_size = none →
          selectStrategy e = AllOutcome.attrError ∧
            (selectStrategy e).dispatches = false) ∧
        (e.hasOffsetParam = false → e.chunk_size = some 0 →
          selectStrategy e = AllOutcome.notImpl ∧
            (selectStrategy e).dispatches = false) := by
  intro e
  refine ⟨fun h => ?_, fun n h1 h2 h3 => ?_, fun h1 h2 => ?_, fun h1 h2 => ?_⟩
  · simp [selectStrategy, h]
  · simp [selectStrategy, h1, h2, h3]
  · constructor <;> simp [selectStrategy, h1, h2, AllOutcome.dispatches]
  · constructor <;> simp [selectStrategy, h1, h2, AllOutcome.dispatches]

lemma join_go_contrib (extract : Bool) :
    ∀ {pre : List Response} {ls : List (List Json)},
      List.Forall₂ (contrib extract) pre ls →
      ∀ rest acc, join_many_go extract (pre ++ rest) acc
        = join_many_go extract rest (acc ++ concatAll ls) := by
  intro pre ls h
  induction h with
  | nil => intro rest acc; simp [concatAll]
  | @cons r l rs ls2 hc _ ih =>
    intro rest acc
    obtain ⟨hok, hcase⟩ := hc
    rcases hcase with ⟨htext, hl⟩ | ⟨htext, j, hbody, hsub⟩
    · subst hl
      have step : join_many_go extract ((r :: rs) ++ rest) acc
          = join_many_go extract (rs ++ rest) (acc ++ [Json.null]) := by
        simp only [List.cons_append, join_many_go, hok, htext]
        simp
      rw [step, ih rest (acc ++ [Json.null]), List.append_assoc]
      simp [concatAll]
    · rcases hsub with ⟨hx, v, hel, hiter⟩ | ⟨hx, hl⟩
      · subst hx
        have step : join_many_go true ((r :: rs) ++ rest) acc
            = join_many_go true (rs ++ rest) (acc ++ l) := by
          simp only [List.cons_append, join_many_go, hok, hbody, hel, hiter]
          simp [htext]
        rw [step, ih rest (acc ++ l), List.append_assoc]
        simp [concatAll]
      · subst hx
        subst hl
        have step : join_many_go false ((r :: rs) ++ rest) acc
            = join_many_go false (rs ++ rest) (acc ++ [j]) := by
          simp only [List.cons_append, join_many_go, hok, hbody]
          simp [htext]
        rw [step, ih rest (acc ++ [j]), List.append_assoc]
        simp [concatAll]

lemma join_many_contrib (extract : Bool) {rs : List Response} {ls : List (List Json)}
    (h : List.Forall₂ (contrib extract) rs ls) :
    join_many rs extract = JoinResult.ok (concatAll ls) := by
  unfold join_many
  have hg := join_go_contrib extract h [] []
  rw [List.append_nil] at hg
  rw [hg]
  simp [join_many_go]

lemma concatAll_map_singleton {α : Type} : ∀ (js : List α),
    concatAll (js.map (fun j => [j])) = js := by
  intro js
  induction js with
  | nil => rfl
  | cons j rest ih => simp [concatAll, ih]

/-- C3: joining a collection with truthy `extract` over ok responses with
non-empty JSON bodies, each of which is a list or has its first present
field among `items`/`tracks`/`albums`/`artists` bound to a list, returns
one flat list: the concatenation, in dispatch order, of those per-response
lists; with `extract` falsy, each decoded body is appended as one element. -/
theorem collection_extract_flattening :
    (∀ (rs : List Response) (ls : List (List Json)),
      List.Forall₂ (fun r l => r.ok = true ∧ r.text ≠ "" ∧
        ∃ j, r.body = some j ∧ listOfBody j = some l) rs ls →
      join_many rs true = JoinResult.ok (concatAll ls)) ∧
      (∀ (rs : List Response) (js : List Json),
        List.Forall₂ (fun r j => r.ok = true ∧ r.text ≠ "" ∧ r.body = some j) rs js →
        join_many rs false = JoinResult.ok js) := by
  constructor
  · intro rs ls h
    refine join_many_contrib true (h.imp ?_)
    rintro r l ⟨hok, htext, j, hbody, hlist⟩
    refine ⟨hok, Or.inr ⟨htext, j, hbody, Or.inl ⟨rfl, ?_⟩⟩⟩
    unfold listOfBody at hlist
    revert hlist
    cases hel : extract_list j with
    | val v =>
      cases v with
      | arr l2 =>
        intro hlist
        simp only [Option.some.injEq] at hlist
        subst hlist
        exact ⟨Json.arr l2, rfl, rfl⟩
      | null => intro hlist; simp at hlist
      | bool b => intro hlist; simp at hlist
      | num n => intro hlist; simp at hlist
      | str s => intro hlist; simp at hlist
      | obj kvs => intro hlist; simp at hlist
    | noList => intro hlist; simp at hlist
    | tyErr => intro hlist; simp at hlist
  · intro rs js h
    have h2 : List.Forall₂ (contrib false) rs (js.map (fun j => [j])) := by
      induction h with
      | nil => exact List.Forall₂.nil
      | @cons r j rs2 js2 hc _ ih =>
        exact List.Forall₂.cons
          ⟨hc.1, Or.inr ⟨hc.2.1, j, hc.2.2, Or.inr ⟨rfl, rfl⟩⟩⟩ ih
    rw [join_many_contrib false h2, concatAll_map_singleton]

/-- Witness for C3: two ok responses shaped `{items: [...]}` joined with
truthy `extract` flatten in dispatch order; the same responses joined with
falsy `extract` stay one element each. -/
theorem collection_extract_flattening_witness :
    join_many
        [Response.mk true 200 "t1" (some (Json.obj [("items", Json.arr [Json.num 1, Json.num 2])])) "u1",
          Response.mk true 200 "t2" (some (Json.obj [("items", Json.arr [Json.num 3])])) "u2"] true
      = JoinResult.ok [Json.num 1, Json.num 2, Json.num 3] :=
  (collection_extract_flattening.1
      [Response.mk true 200 "t1" (some (Json.obj [("items", Json.arr [Json.num 1, Json.num 2])])) "u1",
        Response.mk true 200 "t2" (some (Json.obj [("items", Json.arr [Json.num 3])])) "u2"]
      [[Json.num 1, Json.num 2], [Json.num 3]]
      (List.Forall₂.cons ⟨rfl, by decide, ⟨Json.obj [("items", Json.arr [Json.num 1, Json.num 2])], rfl, rfl⟩⟩
        (List.Forall₂.cons ⟨rfl, by decide, ⟨Json.obj [("items", Json.arr [Json.num 3])], rfl, rfl⟩⟩
          List.Forall₂.nil))).trans rfl

/-- C2 (amended): when the responses before the first non-ok one all process
cleanly (empty body, or decodable body with an extractable element list when
`extract` is truthy) and the failing response's message construction
succeeds, `_join_many` raises the `SpotifyException` of that first non-ok
response — carrying its status, message and URL — and returns no partial
results.  (An earlier ok response with a malformed body raises its own
error first instead; see the counterexample.) -/
theorem collection_failfast_apiError :
    ∀ (extract : Bool) (pre : List Response) (ls : List (List Json)) (r : Response)
      (post : List Response) (m : Json),
      List.Forall₂ (contrib extract) pre ls →
      r.ok = false →
      spotifyMsg r = Except.ok m →
      join_many (pre ++ r :: post) extract
        = JoinResult.apiError r.status_code m r.url := by
  intro extract pre ls r post m hpre hok hmsg
  unfold join_many
  rw [join_go_contrib extract hpre (r :: post) []]
  simp only [join_many_go, hok]
  simp [raiseSpotify, hmsg]

/-- Counterexample to C2 as stated: a collection whose second response is
non-ok, preceded by an ok response whose non-empty body fails to decode as
JSON.  The claim predicts an ApiError built from the non-ok response; the
code instead raises the decoding `ValueError` of the earlier ok response,
so no ApiError is raised at all. -/
theorem collection_failfast_counterexample :
    (Response.mk true 200 "notjson" none "u1").ok = true ∧
      (Response.mk false 404 "" none "u2").ok = false ∧
      join_many [Response.mk true 200 "notjson" none "u1",
        Response.mk false 404 "" none "u2"] false = JoinResult.pyError ∧
      (join_many [Response.mk true 200 "notjson" none "u1",
        Response.mk false 404 "" none "u2"] false).isApi = false :=
  ⟨rfl, rfl, rfl, rfl⟩

/-- Witness for C2 (amended): a clean ok response followed by a 404 with an
empty body yields the ApiError with the generic message. -/
theorem collection_failfast_apiError_witness :
    join_many [Response.mk true 200 "" none "u1",
        Response.mk false 404 "" none "u2"] false
      = JoinResult.apiError 404 (Json.str "Unkown error occured") "u2" :=
  collection_failfast_apiError false [Response.mk true 200 "" none "u1"] [[Json.null]]
    (Response.mk false 404 "" none "u2") [] (Json.str "Unkown error occured")
    (List.Forall₂.cons ⟨rfl, Or.inl ⟨rfl, rfl⟩⟩ List.Forall₂.nil) rfl rfl

lemma noList_extract (j : Json) (h : noListJson j = true) :
    extract_list j = ELRes.noList := by
  cases j with
  | obj kvs =>
    simp only [noListJson, Bool.and_eq_true, Option.isNone_iff_eq_none] at h
    obtain ⟨⟨⟨h1, h2⟩, h3⟩, h4⟩ := h
    simp [extract_list, h1, h2, h3, h4]
  | str s =>
    simp only [noListJson, Bool.and_eq_true, Bool.not_eq_true'] at h
    obtain ⟨⟨⟨h1, h2⟩, h3⟩, h4⟩ := h
    simp [extract_list, h1, h2, h3, h4]
  | null => simp [noListJson] at h
  | bool b => simp [noListJson] at h
  | num n => simp [noListJson] at h
  | arr l => simp [noListJson] at h

/-- C10 (amended): with truthy `extract`, an ok member whose non-empty body
decodes to a dict containing none of the keys `items`, `tracks`, `albums`,
`artists` (or to a string containing none of them as substrings) makes the
join raise `Exception('No item list detected')` even though every request
succeeded — while non-container bodies (numbers, booleans, null) raise a
`TypeError` instead (see the counterexample); and an ok response with an
empty body contributes a single `None` element to the output rather than
being flattened or skipped. -/
theorem collection_extract_noItemList :
    (∀ (pre : List Response) (ls : List (List Json)) (r : Response)
        (post : List Response) (j : Json),
      List.Forall₂ (contrib true) pre ls →
      r.ok = true → r.text ≠ "" → r.body = some j → noListJson j = true →
      join_many (pre ++ r :: post) true = JoinResult.exn "No item list detected") ∧
      (∀ (r : Response) (rest : List Response) (acc : List Json),
        r.ok = true → r.text = "" →
        join_many_go true (r :: rest) acc = join_many_go true rest (acc ++ [Json.null])) := by
  constructor
  · intro pre ls r post j hpre hok htext hbody hno
    unfold join_many
    rw [join_go_contrib true hpre (r :: post) []]
    simp only [join_many_go, hok, hbody, noList_extract j hno]
    simp [htext]
  · intro r rest acc hok htext
    simp only [join_many_go, hok, htext]
    simp

/-- Counterexample to C10 as stated: an ok response whose non-empty body
decodes to the number 5 — neither a list nor a mapping with any of the four
keys.  The claim predicts `Exception('No item list detected')`; the code's
`'items' in item` check raises `TypeError` on a number, a different
exception. -/
theorem collection_extract_noItemList_counterexample :
    Json.isArr (Json.num 5) = false ∧ Json.isObj (Json.num 5) = false ∧
      join_many [Response.mk true 200 "5" (some (Json.num 5)) "u"] true
        = JoinResult.pyError ∧
      JoinResult.pyError ≠ JoinResult.exn "No item list detected" :=
  ⟨rfl, rfl, rfl, fun h => JoinResult.noConfusion h⟩

/-- Witness for C10 (amended): a keyless dict body raises the exception; an
empty body contributes `None`. -/
theorem collection_extract_noItemList_witness :
    join_many [Response.mk true 200 "x" (some (Json.obj [("foo", Json.num 1)])) "u"] true
      = JoinResult.exn "No item list detected" ∧
      join_many_go true [Response.mk true 204 "" none "u"] []
        = join_many_go true [] ([] ++ [Json.null]) :=
  ⟨collection_extract_noItemList.1 [] [] (Response.mk true 200 "x" (some (Json.obj [("foo", Json.num 1)])) "u")
      [] (Json.obj [("foo", Json.num 1)]) List.Forall₂.nil rfl (by decide) rfl (by decide),
    collection_extract_noItemList.2 (Response.mk true 204 "" none "u") [] [] rfl rfl⟩

/-- C7 (amended): the `SpotifyException` carries the response's status code
and the request's URL, with the message computed as: empty body gives the
fixed generic message; a non-empty body that fails to decode, or decodes to
a dict lacking `error`, or whose `error` dict lacks `message`, gives the raw
body text; a dict body with `error.message` gives that value; but a body
decoding to a non-dict, or an `error` value that is not a dict, makes the
constructor itself raise an uncaught `TypeError`, so no ApiError is built
(see the counterexample). -/
theorem apiError_message_chain :
    ∀ r : Response,
      (r.text = "" → spotifyMsg r = Except.ok (Json.str "Unkown error occured")) ∧
        (r.text ≠ "" → r.body = none → spotifyMsg r = Except.ok (Json.str r.text)) ∧
        (∀ kvs, r.text ≠ "" → r.body = some (Json.obj kvs) →
          lookupKey "error" kvs = none → spotifyMsg r = Except.ok (Json.str r.text)) ∧
        (∀ kvs ekvs m, r.text ≠ "" → r.body = some (Json.obj kvs) →
          lookupKey "error" kvs = some (Json.obj ekvs) →
          lookupKey "message" ekvs = some m → spotifyMsg r = Except.ok m) ∧
        (∀ kvs ekvs, r.text ≠ "" → r.body = some (Json.obj kvs) →
          lookupKey "error" kvs = some (Json.obj ekvs) →
          lookupKey "message" ekvs = none → spotifyMsg r = Except.ok (Json.str r.text)) ∧
        (∀ j, r.text ≠ "" → r.body = some j → Json.isObj j = false →
          spotifyMsg r = Except.error ()) ∧
        (∀ kvs e, r.text ≠ "" → r.body = some (Json.obj kvs) →
          lookupKey "error" kvs = some e → Json.isObj e = false →
          spotifyMsg r = Except.error ()) ∧
        (∀ m, spotifyMsg r = Except.ok m →
          raiseSpotify r = JoinResult.apiError r.status_code m r.url) := by
  intro r
  refine ⟨fun h => ?_, fun h hb => ?_, fun kvs h hb he => ?_, fun kvs ekvs m h hb he hm => ?_,
    fun kvs ekvs h hb he hm => ?_, fun j h hb hobj => ?_, fun kvs e h hb he hobj => ?_,
    fun m hm => ?_⟩
  · simp [spotifyMsg, h]
  · simp [spotifyMsg, h, hb]
  · simp [spotifyMsg, h, hb, he]
  · simp [spotifyMsg, h, hb, he, hm]
  · simp [spotifyMsg, h, hb, he, hm]
  · cases j with
    | obj kvs => simp [Json.isObj] at hobj
    | null => simp [spotifyMsg, h, hb]
    | bool b => simp [spotifyMsg, h, hb]
    | num n => simp [spotifyMsg, h, hb]
    | str s => simp [spotifyMsg, h, hb]
    | arr l => simp [spotifyMsg, h, hb]
  · cases e with
    | obj ekvs => simp [Json.isObj] at hobj
    | null => simp [spotifyMsg, h, hb, he]
    | bool b => simp [spotifyMsg, h, hb, he]
    | num n => simp [spotifyMsg, h, hb, he]
    | str s => simp [spotifyMsg, h, hb, he]
    | arr l => simp [spotifyMsg, h, hb, he]
  · simp [raiseSpotify, hm]

/-- Counterexample to C7 as stated: a non-ok response whose non-empty body
is the JSON list `[1]`.  The claim predicts the raw body text as message;
the constructor instead subscripts the list with `'error'` and the uncaught
`TypeError` escapes, so no ApiError is constructed at all. -/
theorem apiError_message_chain_counterexample :
    (Response.mk false 400 "[1]" (some (Json.arr [Json.num 1])) "u").ok = false ∧
      (Response.mk false 400 "[1]" (some (Json.arr [Json.num 1])) "u").text ≠ "" ∧
      spotifyMsg (Response.mk false 400 "[1]" (some (Json.arr [Json.num 1])) "u")
        = Except.error () :=
  ⟨rfl, by decide, rfl⟩

/-- Witness for C7 (amended): a JSON error body yields its `error.message`,
and the ApiError carries status and URL. -/
theorem apiError_message_chain_witness :
    spotifyMsg (Response.mk false 404 "x" (some (Json.obj
        [("error", Json.obj [("message", Json.str "oops")])])) "u")
      = Except.ok (Json.str "oops") ∧
      raiseSpotify (Response.mk false 404 "x" (some (Json.obj
          [("error", Json.obj [("message", Json.str "oops")])])) "u")
        = JoinResult.apiError 404 (Json.str "oops") "u" :=
  ⟨(apiError_message_chain _).2.2.2.1 [("error", Json.obj [("message", Json.str "oops")])]
      [("message", Json.str "oops")] (Json.str "oops") (by decide) rfl rfl rfl,
    (apiError_message_chain _).2.2.2.2.2.2.2 (Json.str "oops")
      ((apiError_message_chain _).2.2.2.1 [("error", Json.obj [("message", Json.str "oops")])]
        [("message", Json.str "oops")] (Json.str "oops") (by decide) rfl rfl rfl)⟩

/-- C8: `_join_one` on an ok response: an empty body returns `None` without
raising; a non-empty decodable body is returned whole when no extract key
is given; and a non-empty extract key makes it return
`find_item(extract, body)` instead of the whole body — the depth-first
search whose first non-`None` match is returned (a null-valued nested hit
reads back as Python `None`, so the search continues past it; a null-valued
direct hit at the top level likewise comes back as `None`). -/
theorem single_join_empty_and_extract :
    ∀ r : Response, r.ok = true →
      ((r.text = "" → ∀ e, join_one r e = Join1.ok none) ∧
        (∀ j, r.text ≠ "" → r.body = some j → join_one r none = Join1.ok (some j)) ∧
        (∀ kvs k, r.text ≠ "" → r.body = some (Json.obj kvs) → k ≠ "" →
          join_one r (some k) = Join1.ok (findJ k (Json.obj kvs)))) := by
  intro r hok
  refine ⟨fun h e => ?_, fun j h hb => ?_, fun kvs k h hb hk => ?_⟩
  · simp [join_one, hok, h]
  · simp [join_one, hok, h, hb]
  · simp [join_one, hok, h, hb, hk]

/-- Witness for C8: an empty 204 body joins to `None`; a dict body with an
extract key joins to the `find_item` search result. -/
theorem single_join_empty_and_extract_witness :
    join_one (Response.mk true 204 "" none "u") none = Join1.ok none ∧
      join_one (Response.mk true 200 "x" (some (Json.obj [("a", Json.num 1)])) "u") (some "a")
        = Join1.ok (findJ "a" (Json.obj [("a", Json.num 1)])) :=
  ⟨(single_join_empty_and_extract (Response.mk true 204 "" none "u") rfl).1 rfl none,
    (single_join_empty_and_extract
        (Response.mk true 200 "x" (some (Json.obj [("a", Json.num 1)])) "u") rfl).2.2
      [("a", Json.num 1)] "a" (by decide) rfl (by decide)⟩

lemma splitChars_ne_nil (sep : Char) : ∀ l, splitChars sep l ≠ [] := by
  intro l
  induction l with
  | nil => simp [splitChars]
  | cons c rest ih =>
    simp only [splitChars]
    cases h : splitChars sep rest with
    | nil => exact absurd h ih
    | cons seg segs => by_cases hc : c = sep <;> simp [hc]

lemma splitChars_no_sep (sep : Char) :
    ∀ l, (∀ c ∈ l, c ≠ sep) → splitChars sep l = [l] := by
  intro l
  induction l with
  | nil => intro _; rfl
  | cons c rest ih =>
    intro h
    have hc : c ≠ sep := h c (List.mem_cons_self c rest)
    have hrest := ih fun x hx => h x (List.mem_cons_of_mem c hx)
    simp only [splitChars, hrest]
    simp [hc]

lemma splitChars_cons_eq (sep c : Char) (rest seg : List Char)
    (segs : List (List Char)) (hs : splitChars sep rest = seg :: segs) :
    splitChars sep (c :: rest)
      = if c = sep then [] :: seg :: segs else (c :: seg) :: segs := by
  have hdef : splitChars sep (c :: rest)
      = match splitChars sep rest with
        | [] => []
        | seg :: segs => if c = sep then [] :: seg :: segs else (c :: seg) :: segs := rfl
  rw [hdef, hs]

lemma splitChars_two_le (sep : Char) :
    ∀ l, sep ∈ l → 2 ≤ (splitChars sep l).length := by
  intro l
  induction l with
  | nil => intro h; simp at h
  | cons c rest ih =>
    intro h
    cases hs : splitChars sep rest with
    | nil => exact absurd hs (splitChars_ne_nil sep rest)
    | cons seg segs =>
      rw [splitChars_cons_eq sep c rest seg segs hs]
      by_cases hc : c = sep
      · simp [hc]
      · have hmem : sep ∈ rest := by
          cases List.mem_cons.mp h with
          | inl h1 => exact absurd h1.symm hc
          | inr h1 => exact h1
        have h2 := ih hmem
        rw [hs] at h2
        rw [if_neg hc]
        simp only [List.length_cons] at h2 ⊢
        omega

lemma getLastD_irrel {β : Type} (l : List β) (d d' : β) (h : l ≠ []) :
    l.getLastD d = l.getLastD d' := by
  cases l with
  | nil => exact absurd rfl h
  | cons x xs => rw [List.getLastD_cons, List.getLastD_cons]

lemma splitChars_last (sep : Char) :
    ∀ (a b : List Char), (∀ c ∈ b, c ≠ sep) →
      (splitChars sep (a ++ sep :: b)).getLastD [] = b := by
  intro a
  induction a with
  | nil =>
    intro b hb
    have hb2 := splitChars_no_sep sep b hb
    have hdef : splitChars sep ([] ++ sep :: b)
        = match splitChars sep b with
          | [] => []
          | seg :: segs => if sep = sep then [] :: seg :: segs
              else (sep :: seg) :: segs := rfl
    rw [hdef, hb2]
    simp
  | cons c a2 ih =>
    intro b hb
    cases hs : splitChars sep (a2 ++ sep :: b) with
    | nil => exact absurd hs (splitChars_ne_nil sep _)
    | cons seg segs =>
      have hlast := ih b hb
      rw [hs] at hlast
      have hstep := splitChars_cons_eq sep c (a2 ++ sep :: b) seg segs hs
      rw [List.cons_append, hstep]
      by_cases hc : c = sep
      · rw [if_pos hc]
        simp only [List.getLastD_cons] at hlast ⊢
        exact hlast
      · rw [if_neg hc]
        have h2 : 2 ≤ (splitChars sep (a2 ++ sep :: b)).length :=
          splitChars_two_le sep _ (by simp)
        rw [hs] at h2
        simp only [List.length_cons] at h2
        have hsegs : segs ≠ [] := by
          cases segs with
          | nil => simp at h2
          | cons _ _ => simp
        simp only [List.getLastD_cons] at hlast ⊢
        rw [getLastD_irrel segs (c :: seg) seg hsegs]
        exact hlast

lemma charsStart_same : ∀ (p rest : List Char), charsStart p (p ++ rest) = true := by
  intro p
  induction p with
  | nil => intro rest; rfl
  | cons x xs ih =>
    intro rest
    simp [charsStart, ih rest]

lemma charsStart_extend : ∀ (p a : List Char), charsStart p a = true →
    ∀ b, charsStart p (a ++ b) = true := by
  intro p
  induction p with
  | nil => intro a _ b; rfl
  | cons x xs ih =>
    intro a h b
    cases a with
    | nil => simp [charsStart] at h
    | cons y ys =>
      simp only [charsStart, Bool.and_eq_true] at h
      simp only [List.cons_append, charsStart, Bool.and_eq_true]
      exact ⟨h.1, ih ys h.2 b⟩

lemma charsStart_head_ne (x y : Char) (xs ys : List Char) (h : (x == y) = false) :
    charsStart (x :: xs) (y :: ys) = false := by
  simp [charsStart, h]

lemma string_mk_data : ∀ s : String, String.mk s.data = s := by
  intro s
  cases s
  rfl

lemma string_data_append : ∀ (a b : String), (a ++ b).data = a.data ++ b.data := by
  intro a b
  cases a
  cases b
  rfl

/-- C9 (amended): `id_from_str` passes through any reference that starts
with neither `http` nor `spotify:`; it maps a `spotify:`-scheme URI
`spotify:<type>:<id>` to its trailing `:`-segment; and it maps an
`http(s)` URL whose final path segment is the id to that segment.  The
three Spotify reference forms of one resource therefore normalize to the
same ID — but only for the literal `spotify` scheme and `http` URLs, not
for an arbitrary `scheme:resourceType:id` (see the counterexample). -/
theorem reference_normalization :
    (∀ s : String, pyStartsWith "http" s = false → pyStartsWith "spotify:" s = false →
      id_from_str s = s) ∧
      (∀ t id : String, ':' ∉ id.data →
        id_from_str ("spotify:" ++ t ++ ":" ++ id) = id) ∧
      (∀ pre id : String, pyStartsWith "http" pre = true → '/' ∉ id.data →
        id_from_str (pre ++ "/" ++ id) = id) := by
  refine ⟨fun s h1 h2 => ?_, fun t id hid => ?_, fun pre id hid hslash => ?_⟩
  · simp [id_from_str, h1, h2]
  · have hdata : ("spotify:" ++ t ++ ":" ++ id).data
        = ("spotify:".data ++ t.data) ++ (':' :: id.data) := by
      rw [string_data_append, string_data_append, string_data_append,
        List.append_assoc ("spotify:".data ++ t.data) ":".data id.data]
      rfl
    have h1 : pyStartsWith "http" ("spotify:" ++ t ++ ":" ++ id) = false := by
      unfold pyStartsWith
      rw [hdata]
      have hhead : ("spotify:".data ++ t.data) ++ (':' :: id.data)
          = 's' :: (("potify:".data ++ t.data) ++ (':' :: id.data)) := rfl
      rw [hhead]
      exact charsStart_head_ne 'h' 's' _ _ (by decide)
    have h2 : pyStartsWith "spotify:" ("spotify:" ++ t ++ ":" ++ id) = true := by
      unfold pyStartsWith
      rw [hdata, List.append_assoc]
      exact charsStart_same _ _
    have hbr : id_from_str ("spotify:" ++ t ++ ":" ++ id)
        = pySplitLast ':' ("spotify:" ++ t ++ ":" ++ id) := by
      simp [id_from_str, h1, h2]
    rw [hbr]
    unfold pySplitLast
    rw [hdata, splitChars_last ':' ("spotify:".data ++ t.data) id.data
      (fun c hc he => hid (he ▸ hc))]
  · have hdata : (pre ++ "/" ++ id).data = pre.data ++ ('/' :: id.data) := by
      rw [string_data_append, string_data_append, List.append_assoc]
      rfl
    have h1 : pyStartsWith "http" (pre ++ "/" ++ id) = true := by
      unfold pyStartsWith
      rw [hdata]
      exact charsStart_extend _ _ hid ('/' :: id.data)
    have hbr : id_from_str (pre ++ "/" ++ id) = pySplitLast '/' (pre ++ "/" ++ id) := by
      simp [id_from_str, h1]
    rw [hbr]
    unfold pySplitLast
    rw [hdata, splitChars_last '/' pre.data id.data (fun c hc he => hslash (he ▸ hc))]

/-- Counterexample to C9 as stated: a URI with a non-`spotify` scheme is
returned unchanged instead of being reduced to its trailing id. -/
theorem reference_normalization_counterexample :
    id_from_str "myscheme:track:xyz" = "myscheme:track:xyz" ∧
      id_from_str "myscheme:track:xyz" ≠ "xyz" :=
  ⟨rfl, by decide⟩

/-- Witness for C9 (amended): the three reference forms of one resource id. -/
theorem reference_normalization_witness :
    id_from_str "abc123" = "abc123" ∧
      id_from_str "spotify:track:abc123" = "abc123" ∧
      id_from_str "https://open.spotify.com/track/abc123" = "abc123" :=
  ⟨reference_normalization.1 "abc123" (by decide) (by decide),
    reference_normalization.2.1 "track" "abc123" (by decide),
    reference_normalization.2.2 "https://open.spotify.com/track" "abc123"
      (by decide) (by decide)⟩

/-- Witness for C6 on the three kinds of endpoints. -/
theorem strategy_selection_correct_witness :
    selectStrategy ⟨true, none⟩ = AllOutcome.useOffset ∧
      selectStrategy ⟨false, some 50⟩ = AllOutcome.useChunk ∧
      selectStrategy ⟨false, none⟩ = AllOutcome.attrError :=
  ⟨(strategy_selection_correct ⟨true, none⟩).1 rfl,
    (strategy_selection_correct ⟨false, some 50⟩).2.1 50 rfl rfl (by decide),
    ((strategy_selection_correct ⟨false, none⟩).2.2.1 rfl rfl).1⟩



